import Mathlib

/-!
Verification development for the safe-portals serialization library
(`src/index.ts`, current revision: path-carrying validation errors).

The embedding models the untyped JavaScript value world by a single
inductive `Json` (the in-memory typed values and the primitive boundary
trees both live there, exactly as in the dynamically typed source), JS
numbers by `JsNum` (a rational plus the three non-finite values;
binary64 rounding is idealized away, which is harmless on the integer
ranges the theorems quantify over), and a thrown JS exception by
`JsError`: `validation` is the library's `ValidationError (path, got)`,
`typeError` stands for any other runtime exception (such as the
`TypeError` raised by a property access on `null` or by calling a
member of `undefined`).

Each serializer of the source becomes a pair of functions
`Json → Except JsError Json`; combinators take their children as such
function pairs, mirroring the source combinator bodies line by line.
The date serializers are outside the model (their typed side is a
platform `Date` object, not a `Json` tree); no claim mentions them.
Prototype-chain property lookup is not modelled: `o[key]` on an object
reads only own fields (and `length` / indices on arrays and strings).
-/

namespace SafePortals

inductive JsNum where
  | finite (q : ℚ)
  | nan
  | inf
  | negInf
deriving DecidableEq, Repr

inductive Json where
  | null
  | undefinedV
  | bool (b : Bool)
  | num (n : JsNum)
  | str (s : String)
  | arr (elems : List Json)
  | obj (fields : List (String × Json))

inductive JsError where
  | validation (path : String) (got : Json)
  | typeError

abbrev EResult := Except JsError Json

/-- JS loose equality to null: `o == null` holds exactly for null and undefined. -/
def isNullish : Json → Bool
  | .null => true
  | .undefinedV => true
  | _ => false

/-- `o instanceof Array`. -/
def Json.isArrayInst : Json → Bool
  | .arr _ => true
  | _ => false

/-- `o instanceof Object`: true for plain objects and arrays, false for
primitives (strings, numbers, booleans) and for null/undefined. -/
def Json.isObjectInst : Json → Bool
  | .arr _ => true
  | .obj _ => true
  | _ => false

/-- Canonical array-index property names: a digit string without leading
zeros (so `"01"` is not index 1). -/
def parseIndex (k : String) : Option Nat :=
  if k.data ≠ [] ∧ (∀ c ∈ k.data, c.isDigit) ∧ (k = "0" ∨ k.data.head? ≠ some '0') then
    some (k.data.foldl (fun a c => a * 10 + (c.toNat - 48)) 0)
  else none

/-- Property read `o[k]` on a non-nullish value: own fields of objects,
elements / `length` of arrays and strings, `undefined` everywhere else. -/
def getMemberTotal (o : Json) (k : String) : Json :=
  match o with
  | .obj kvs => (kvs.lookup k).getD .undefinedV
  | .arr xs =>
      if k = "length" then .num (.finite (xs.length : ℚ))
      else
        match parseIndex k with
        | some i => (xs[i]?).getD .undefinedV
        | none => .undefinedV
  | .str s =>
      if k = "length" then .num (.finite (s.length : ℚ))
      else
        match parseIndex k with
        | some i =>
            match s.data[i]? with
            | some c => .str (String.mk [c])
            | none => .undefinedV
        | none => .undefinedV
  | _ => .undefinedV

/-- Property read `o[k]`: raises TypeError on null/undefined, otherwise total. -/
def member (o : Json) (k : String) : Except JsError Json :=
  if isNullish o then .error .typeError else .ok (getMemberTotal o k)

/-- `Math.trunc`: rounding toward zero, which on `num/den` is exactly
T-division of the numerator by the (positive) denominator. -/
def jsTrunc (q : ℚ) : ℤ := q.num.tdiv q.den

def digitChar (n : Nat) : Char := Char.ofNat (48 + n)

/-- Decimal digits, most significant first; fuel-structural so that the
kernel can evaluate it (the fuel is always sufficient at one unit per
recursion level). -/
def natCharsAux : Nat → Nat → List Char
  | 0, _ => []
  | fuel + 1, n =>
      if n < 10 then [digitChar n]
      else natCharsAux fuel (n / 10) ++ [digitChar (n % 10)]

/-- Decimal digits of a natural number, most significant first. -/
def natChars (n : Nat) : List Char := natCharsAux (n + 1) n

def intDecimalString (v : ℤ) : String :=
  if v < 0 then "-" ++ String.mk (natChars v.natAbs) else String.mk (natChars v.natAbs)

/-- Decimal expansion digits of `num/den` (with `num < den`), up to `fuel` digits. -/
def fracChars : Nat → Nat → Nat → List Char
  | 0, _, _ => []
  | _ + 1, 0, _ => []
  | fuel + 1, num, den => digitChar (num * 10 / den) :: fracChars fuel (num * 10 % den) den

/-- Exact decimal rendering of a rational (fractional part truncated at 50
digits; only ever reached outside the integer range the theorems use). -/
def ratDecimalString (q : ℚ) : String :=
  let sgn := if q.num < 0 then "-" else ""
  let ip := q.num.natAbs / q.den
  let fr := q.num.natAbs % q.den
  sgn ++ String.mk (natChars ip) ++
    (if fr = 0 then "" else "." ++ String.mk (fracChars 50 fr q.den))

/-- JS number-to-string. On integers of magnitude below 10^21 (JS switches
to exponent notation only at 1e21) this is the plain decimal rendering,
which is what JS produces for every exactly-representable integer; the
remaining branch is the exact decimal expansion. -/
def numToString : JsNum → String
  | .nan => "NaN"
  | .inf => "Infinity"
  | .negInf => "-Infinity"
  | .finite q =>
      if q.den = 1 ∧ q.num.natAbs < 10 ^ 21 then intDecimalString q.num
      else ratDecimalString q

mutual

/-- JS ToString on a Json value (as invoked implicitly by `parseInt`). -/
def jsToString : Json → String
  | .null => "null"
  | .undefinedV => "undefined"
  | .bool b => cond b "true" "false"
  | .num n => numToString n
  | .str s => s
  | .arr xs => String.intercalate "," (arrayElemStrings xs)
  | .obj _ => "[object Object]"

/-- `Array.prototype.join(",")` element strings: null/undefined render empty. -/
def arrayElemStrings : List Json → List String
  | [] => []
  | x :: xs => (if isNullish x then "" else jsToString x) :: arrayElemStrings xs

end

def isHexDigitJs (c : Char) : Bool :=
  c.isDigit || ('a' ≤ c && c ≤ 'f') || ('A' ≤ c && c ≤ 'F')

def hexDigitVal (c : Char) : Nat :=
  if c.isDigit then c.toNat - 48
  else if 'a' ≤ c ∧ c ≤ 'f' then c.toNat - 87
  else c.toNat - 55

def isJsSpace (c : Char) : Bool :=
  c == ' ' || c == '\t' || c == '\n' || c == '\r'

/-- The string-level core of JS `parseInt`: skip whitespace, optional sign,
optional 0x/0X hex prefix, then the longest digit prefix; NaN when that
prefix is empty. -/
def parseIntStr (s : String) : JsNum :=
  let cs0 := s.data.dropWhile isJsSpace
  let neg : Bool := cs0.head? == some '-'
  let cs1 := if neg || cs0.head? == some '+' then cs0.tail else cs0
  let isHex : Bool := cs1.head? == some '0' &&
    (cs1.tail.head? == some 'x' || cs1.tail.head? == some 'X')
  let digits := if isHex then cs1.tail.tail.takeWhile isHexDigitJs
                else cs1.takeWhile Char.isDigit
  let base := if isHex then 16 else 10
  if digits = [] then .nan
  else
    .finite (((if neg then -1 else 1 : ℤ) *
      ((digits.foldl (fun a c => a * base + hexDigitVal c) 0 : ℕ) : ℤ) : ℤ))

/-- `parseInt(o)`: ToString then parse. -/
def parseIntJs (o : Json) : JsNum := parseIntStr (jsToString o)

/-! ### Primitive serializers (source: `str`, `int`, `bool`, `raw`) -/

def intRead (o : Json) : EResult :=
  match parseIntJs o with
  | .nan => .error (.validation "" o)
  | n => .ok (.num n)

def intWrite (t : Json) : EResult :=
  match t with
  | .num (.finite q) => .ok (.num (.finite (jsTrunc q : ℤ)))
  | t => .error (.validation "" t)

def strRead (o : Json) : EResult :=
  match o with
  | .str s => .ok (.str s)
  | o => .error (.validation "" o)

def strWrite (t : Json) : EResult :=
  match t with
  | .str s => .ok (.str s)
  | t => .error (.validation "" t)

def boolRead (o : Json) : EResult :=
  match o with
  | .bool b => .ok (.bool b)
  | o => .error (.validation "" o)

def boolWrite (t : Json) : EResult :=
  match t with
  | .bool b => .ok (.bool b)
  | t => .error (.validation "" t)

def rawRead (o : Json) : EResult := .ok o

def rawWrite (o : Json) : EResult := .ok o

/-! ### Modifier combinators -/

def optionalRead (child : Json → EResult) (o : Json) : EResult :=
  if isNullish o then .ok .undefinedV else child o

def optionalWrite (child : Json → EResult) (t : Json) : EResult :=
  if isNullish t then .ok .null else child t

/-! ### array combinator

The element loop of `array`: each element is passed to the child; a child
`ValidationError` is caught and re-raised with the element locator
prefixed to its path and with the whole container input as `got`; any
other exception propagates unchanged. -/

def mapWithPath (child : Json → EResult) (orig : Json) :
    List Json → Nat → Except JsError (List Json)
  | [], _ => .ok []
  | x :: xs, i =>
    match child x with
    | .ok y =>
        match mapWithPath child orig xs (i + 1) with
        | .ok ys => .ok (y :: ys)
        | .error e => .error e
    | .error (.validation p _) => .error (.validation ("[" ++ toString i ++ "]" ++ p) orig)
    | .error e => .error e

def arrayRead (child : Json → EResult) (o : Json) : EResult :=
  match o with
  | .arr xs =>
      match mapWithPath child o xs 0 with
      | .ok ys => .ok (.arr ys)
      | .error e => .error e
  | o => .error (.validation "" o)

def arrayWrite (child : Json → EResult) (t : Json) : EResult :=
  match t with
  | .arr xs =>
      match mapWithPath child t xs 0 with
      | .ok ys => .ok (.arr ys)
      | .error e => .error e
  | t => .error (.validation "" t)

/-! ### obj and partial_obj combinators -/

/-- The declared-field loop shared by `obj`/`partial_obj` read and write:
for each declared key, run the child on `o[key]`; catch a child
`ValidationError` and re-raise it with `.key` prefixed to its path and
the whole container input `orig` as `got`. -/
def fieldsLoop (kids : List (String × (Json → EResult))) (orig o : Json) :
    Except JsError (List (String × Json)) :=
  match kids with
  | [] => .ok []
  | (k, child) :: rest =>
    match child (getMemberTotal o k) with
    | .ok v =>
        match fieldsLoop rest orig o with
        | .ok out => .ok ((k, v) :: out)
        | .error e => .error e
    | .error (.validation p _) => .error (.validation ("." ++ k ++ p) orig)
    | .error e => .error e

/-- `obj(def).read`: requires a non-array object, then runs every declared
field child on the corresponding slot. -/
def objRead (kids : List (String × (Json → EResult))) (o : Json) : EResult :=
  if !o.isObjectInst || o.isArrayInst then .error (.validation "" o)
  else
    match fieldsLoop kids o o with
    | .ok out => .ok (.obj out)
    | .error e => .error e

/-- `obj(def).write`: requires only `instanceof Object` (arrays pass this
check), then runs every declared field child writer on `r[key]`. -/
def objWrite (kids : List (String × (Json → EResult))) (r : Json) : EResult :=
  if !r.isObjectInst then .error (.validation "" r)
  else
    match fieldsLoop kids r r with
    | .ok out => .ok (.obj out)
    | .error e => .error e

/-- `partial_obj(def).read`: like `objRead` but every child is wrapped in
`optional` at use. -/
def partialObjRead (kids : List (String × (Json → EResult))) (o : Json) : EResult :=
  if !o.isObjectInst || o.isArrayInst then .error (.validation "" o)
  else
    match fieldsLoop (kids.map (fun kc => (kc.1, optionalRead kc.2))) o o with
    | .ok out => .ok (.obj out)
    | .error e => .error e

/-- `partial_obj(def).write`: unlike `objWrite`, explicitly rejects arrays. -/
def partialObjWrite (kids : List (String × (Json → EResult))) (r : Json) : EResult :=
  if !r.isObjectInst || r.isArrayInst then .error (.validation "" r)
  else
    match fieldsLoop (kids.map (fun kc => (kc.1, optionalWrite kc.2))) r r with
    | .ok out => .ok (.obj out)
    | .error e => .error e

/-! ### tuple combinator

The current source iterates over the length of the *input* list, fetching
`def[i]` for every input index: past the declared arity `def[i]` is
`undefined` and the call `def[i].read` raises a TypeError, which the
`catch (e) if e instanceof ValidationError` filter re-throws unchanged. -/

def tupleLoop (defs : List (Json → EResult)) (orig : Json) :
    List Json → Nat → Except JsError (List Json)
  | [], _ => .ok []
  | x :: xs, i =>
    match defs[i]? with
    | none => .error .typeError
    | some child =>
      match child x with
      | .ok y =>
          match tupleLoop defs orig xs (i + 1) with
          | .ok ys => .ok (y :: ys)
          | .error e => .error e
      | .error (.validation p _) => .error (.validation ("[" ++ toString i ++ "]" ++ p) orig)
      | .error e => .error e

def tupleRead (defs : List (Json → EResult)) (o : Json) : EResult :=
  match o with
  | .arr xs =>
      match tupleLoop defs o xs 0 with
      | .ok ys => .ok (.arr ys)
      | .error e => .error e
  | o => .error (.validation "" o)

def tupleWrite (defs : List (Json → EResult)) (r : Json) : EResult :=
  match r with
  | .arr xs =>
      match tupleLoop defs r xs 0 with
      | .ok ys => .ok (.arr ys)
      | .error e => .error e
  | r => .error (.validation "" r)

/-! ### variant combinator -/

/-- `variantTypes.indexOf(o.type)`: the first declared branch whose tag
equals the (string) `type` slot. -/
def findBranch (branches : List (String × (Json → EResult))) (ty : Json) :
    Option (String × (Json → EResult)) :=
  match ty with
  | .str t => branches.find? (fun b => b.1 == t)
  | _ => none

/-- Own enumerable properties contributed by a value when spread into an
object literal or copied by `Object.assign`: fields of an object, indexed
elements of an array, indexed characters of a string, nothing otherwise. -/
def spreadFields : Json → List (String × Json)
  | .obj kvs => kvs
  | .arr xs => xs.enum.map (fun p => (toString p.1, p.2))
  | .str s => s.data.enum.map (fun p => (toString p.1, .str (String.mk [p.2])))
  | _ => []

/-- JS property assignment on an object under construction: overwrite the
existing key in place, else append. -/
def setField (kvs : List (String × Json)) (k : String) (v : Json) :
    List (String × Json) :=
  if kvs.any (fun kv => kv.1 == k) then
    kvs.map (fun kv => if kv.1 == k then (k, v) else kv)
  else kvs ++ [(k, v)]

/-- String coercion of the `type` slot as used in the tag locator
(`'<' + o.type + '>'`); only ever reached on a string, since branch
lookup requires one. -/
def tyText : Json → String
  | .str t => t
  | _ => ""

/-- `variant(...).read`: dispatch on `o.type` (a property access that
raises TypeError on null/undefined), fail with an empty path on an
unknown tag, else run the branch on the whole input, re-tagging the
result and prefixing child validation failures with the tag locator. -/
def variantRead (branches : List (String × (Json → EResult))) (o : Json) : EResult :=
  match member o "type" with
  | .error e => .error e
  | .ok ty =>
    match findBranch branches ty with
    | none => .error (.validation "" o)
    | some (_, child) =>
      match child o with
      | .ok r => .ok (.obj (setField (spreadFields r) "type" ty))
      | .error (.validation p _) => .error (.validation ("<" ++ tyText ty ++ ">" ++ p) o)
      | .error e => .error e

def variantWrite (branches : List (String × (Json → EResult))) (t : Json) : EResult :=
  match member t "type" with
  | .error e => .error e
  | .ok ty =>
    match findBranch branches ty with
    | none => .error (.validation "" t)
    | some (_, child) =>
      match child t with
      | .ok r => .ok (.obj (setField (spreadFields r) "type" ty))
      | .error (.validation p _) => .error (.validation ("<" ++ tyText ty ++ ">" ++ p) t)
      | .error e => .error e

/-! ### combine combinator -/

/-- `args.map(t => t.read(o))`: every constituent applied to the same
input, in order; the first exception propagates unchanged. -/
def mapParts (parts : List (Json → EResult)) (o : Json) :
    Except JsError (List Json) :=
  match parts with
  | [] => .ok []
  | f :: fs =>
    match f o with
    | .ok r =>
        match mapParts fs o with
        | .ok rs => .ok (r :: rs)
        | .error e => .error e
    | .error e => .error e

/-- `Object.assign(target, src)` for one source. -/
def assignOne (acc : List (String × Json)) (src : Json) : List (String × Json) :=
  (spreadFields src).foldl (fun a kv => setField a kv.1 kv.2) acc

/-- `Object.assign(\x7b\x7d, ...rs)`. -/
def objectAssign (rs : List Json) : Json := .obj (rs.foldl assignOne [])

def combineRead (parts : List (Json → EResult)) (o : Json) : EResult :=
  match mapParts parts o with
  | .ok rs => .ok (objectAssign rs)
  | .error e => .error e

def combineWrite (parts : List (Json → EResult)) (t : Json) : EResult :=
  match mapParts parts t with
  | .ok rs => .ok (objectAssign rs)
  | .error e => .error e

/-! ### versioned wrapper -/

/-- The wrapper's fixed inner serializer `tuple(int, raw)`. -/
def versionedInnerRead : Json → EResult := tupleRead [intRead, rawRead]

def versionedInnerWrite : Json → EResult := tupleWrite [intWrite, rawWrite]

/-- Fuel-structural body of the migration while-loop (the fuel is always
sufficient: the loop runs at most `migs.length` times). -/
def migrateFromAux : Nat → List (Json → Json) → Nat → Json → Json
  | 0, _, _, data => data
  | fuel + 1, migs, v, data =>
      if h : v < migs.length then migrateFromAux fuel migs (v + 1) (migs.get ⟨v, h⟩ data)
      else data

/-- The migration while-loop for a non-negative integer version tag:
`while (ver < migrations.length) data = migrations[ver++](data)`. -/
def migrateFrom (migs : List (Json → Json)) (v : Nat) (data : Json) : Json :=
  migrateFromAux (migs.length + 1) migs v data

/-- The migration loop on the raw version tag. A finite tag below the
migration count that is not a valid list index (negative, or fractional,
which `parseInt` never produces) selects `migrations[ver] = undefined`
and calling it raises a TypeError; `-Infinity` compares below every
count; NaN, `+Infinity` and `undefined` (a missing tag slot) all fail
the `<` comparison, skipping the loop. -/
def migrateData (migs : List (Json → Json)) (ver data : Json) :
    Except JsError Json :=
  match ver with
  | .num (.finite v) =>
      if v < (migs.length : ℚ) then
        if 0 ≤ v ∧ v.den = 1 then .ok (migrateFrom migs v.num.toNat data)
        else .error .typeError
      else .ok data
  | .num .negInf => .error .typeError
  | _ => .ok data

/-- `versioned(...).read`: run the inner `tuple(int, raw)` reader, take
slots 0 and 1 of the resulting pair, run the migration loop, then hand
the accumulated payload to the schema reader. -/
def versionedRead (schemaRead : Json → EResult) (migs : List (Json → Json))
    (o : Json) : EResult :=
  match versionedInnerRead o with
  | .error e => .error e
  | .ok r =>
    match member r "0" with
    | .error e => .error e
    | .ok ver =>
      match member r "1" with
      | .error e => .error e
      | .ok data =>
        match migrateData migs ver data with
        | .ok data2 => schemaRead data2
        | .error e => .error e

/-- `versioned(...).write`: encode with the current schema (that argument
is evaluated first, so a schema failure propagates unchanged), then write
`[migrations.length, payload]` through `tuple(int, raw)`. -/
def versionedWrite (schemaWrite : Json → EResult) (migs : List (Json → Json))
    (t : Json) : EResult :=
  match schemaWrite t with
  | .error e => .error e
  | .ok p => versionedInnerWrite (.arr [.num (.finite (migs.length : ℚ)), p])

/-! ### Diagnostics: JSON.stringify and the ValidationError message -/

def hexChar (n : Nat) : Char := if n < 10 then digitChar n else Char.ofNat (87 + n)

def escapeChar (c : Char) : String :=
  if c = '"' then "\\\""
  else if c = '\\' then "\\\\"
  else if c = '\n' then "\\n"
  else if c = '\r' then "\\r"
  else if c = '\t' then "\\t"
  else if c = '\x08' then "\\b"
  else if c = '\x0c' then "\\f"
  else if c.toNat < 32 then
    "\\u00" ++ String.mk [hexChar (c.toNat / 16), hexChar (c.toNat % 16)]
  else String.mk [c]

def quoteJson (s : String) : String :=
  "\"" ++ String.join (s.data.map escapeChar) ++ "\""

mutual

/-- `JSON.stringify`: `none` models the JS result `undefined` (produced
for `undefined` itself); non-finite numbers serialize as `null`;
undefined-valued object fields are skipped while undefined array
elements serialize as `null`. -/
def jsonStringify : Json → Option String
  | .undefinedV => none
  | .null => some "null"
  | .bool b => some (cond b "true" "false")
  | .num (.finite q) => some (numToString (.finite q))
  | .num _ => some "null"
  | .str s => some (quoteJson s)
  | .arr xs => some ("[" ++ String.intercalate "," (stringifyElems xs) ++ "]")
  | .obj kvs => some ("\x7b" ++ String.intercalate "," (stringifyFields kvs) ++ "\x7d")

def stringifyElems : List Json → List String
  | [] => []
  | x :: xs => ((jsonStringify x).getD "null") :: stringifyElems xs

def stringifyFields : List (String × Json) → List String
  | [] => []
  | (k, v) :: rest =>
    match jsonStringify v with
    | none => stringifyFields rest
    | some s => (quoteJson k ++ ":" ++ s) :: stringifyFields rest

end

/-- Template-literal interpolation of `JSON.stringify(got)`: the JS value
`undefined` interpolates as the text `undefined`. -/
def renderedGot (g : Json) : String := (jsonStringify g).getD "undefined"

/-- The message assembled by the `ValidationError` constructor. -/
def errorMessage (path : String) (got : Json) : String :=
  "data" ++ path ++ " does not match serializer in data " ++ renderedGot got

/-! ### Deep equality up to absent-versus-undefined fields

The repository's round-trip tests compare with jest's `toEqual`, which
treats an object field holding `undefined` as identical to an absent
field. `scrub` removes undefined-valued fields everywhere; two values
are deep-equal in that sense when their scrubs coincide (scrub equality
keeps field order, so it is a sound — slightly stronger — witness of
deep equality). -/

mutual

def scrub : Json → Json
  | .arr xs => .arr (scrubElems xs)
  | .obj kvs => .obj (scrubFields kvs)
  | j => j

def scrubElems : List Json → List Json
  | [] => []
  | x :: xs => scrub x :: scrubElems xs

def scrubFields : List (String × Json) → List (String × Json)
  | [] => []
  | (_, .undefinedV) :: rest => scrubFields rest
  | (k, v) :: rest => (k, scrub v) :: scrubFields rest

end

/-- The JS number 123.4, as an exact rational in lowest terms (written as
an explicit numerator/denominator pair so that it evaluates by kernel
reduction). -/
def q1234 : ℚ := ⟨617, 5, by norm_num, by decide⟩

theorem q1234_eq_div : q1234 = 617 / 5 := by
  have h : ((q1234.num : ℚ) / (q1234.den : ℚ)) = q1234 := Rat.num_div_den q1234
  rw [← h]
  norm_num [q1234]

/-! ### Lemmas: decimal rendering and parseInt round-trip -/

theorem natCharsAux_shape (fuel : Nat) :
    ∀ n, n < fuel →
      natCharsAux fuel n ≠ [] ∧
      ∀ c ∈ natCharsAux fuel n, ∃ d, d < 10 ∧ c = digitChar d := by
  induction fuel with
  | zero => intro n hn; omega
  | succ fuel ih =>
    intro n hn
    by_cases h10 : n < 10
    · refine ⟨by simp [natCharsAux, h10], ?_⟩
      intro c hc
      simp [natCharsAux, h10] at hc
      exact ⟨n, h10, hc⟩
    · have hdiv : n / 10 < n := Nat.div_lt_self (by omega) (by omega)
      have hfuel : n / 10 < fuel := by omega
      refine ⟨by simp [natCharsAux, h10], ?_⟩
      intro c hc
      simp only [natCharsAux, if_neg h10, List.mem_append, List.mem_singleton] at hc
      rcases hc with hc | hc
      · exact (ih (n / 10) hfuel).2 c hc
      · exact ⟨n % 10, Nat.mod_lt _ (by omega), hc⟩

theorem natChars_ne_nil (n : Nat) : natChars n ≠ [] :=
  (natCharsAux_shape (n + 1) n (by omega)).1

theorem natChars_digits (n : Nat) : ∀ c ∈ natChars n, ∃ d, d < 10 ∧ c = digitChar d :=
  (natCharsAux_shape (n + 1) n (by omega)).2

theorem hexDigitVal_digitChar (d : Nat) (h : d < 10) : hexDigitVal (digitChar d) = d := by
  interval_cases d <;> decide

theorem natCharsAux_foldl (fuel : Nat) :
    ∀ n a, n < fuel →
      (natCharsAux fuel n).foldl (fun acc c => acc * 10 + hexDigitVal c) a
        = a * 10 ^ (natCharsAux fuel n).length + n := by
  induction fuel with
  | zero => intro n a hn; omega
  | succ fuel ih =>
    intro n a hn
    by_cases h10 : n < 10
    · simp [natCharsAux, h10, hexDigitVal_digitChar n h10]
    · have hdiv : n / 10 < n := Nat.div_lt_self (by omega) (by omega)
      have hfuel : n / 10 < fuel := by omega
      have hmod : n % 10 < 10 := Nat.mod_lt _ (by omega)
      simp only [natCharsAux, if_neg h10, List.foldl_append, List.foldl_cons,
        List.foldl_nil, List.length_append, List.length_singleton,
        ih (n / 10) a hfuel, hexDigitVal_digitChar (n % 10) hmod]
      have : 10 ^ ((natCharsAux fuel (n / 10)).length + 1)
          = 10 ^ (natCharsAux fuel (n / 10)).length * 10 := by ring
      rw [this]
      have hdm := Nat.div_add_mod n 10
      ring_nf
      omega

theorem natChars_foldl (n : Nat) :
    (natChars n).foldl (fun acc c => acc * 10 + hexDigitVal c) 0 = n := by
  have h := natCharsAux_foldl (n + 1) n 0 (by omega)
  simpa [natChars] using h

theorem takeWhile_eq_self_of_all {α : Type} (p : α → Bool) (l : List α)
    (h : ∀ c ∈ l, p c = true) : l.takeWhile p = l := by
  rw [List.takeWhile_eq_self_iff]
  exact h

/-- Every fact about a digit character that the `parseInt` round-trip
needs, packaged per digit. -/
theorem digitChar_facts (d : Nat) (h : d < 10) :
    isJsSpace (digitChar d) = false ∧
    (digitChar d == '-') = false ∧
    (digitChar d == '+') = false ∧
    (digitChar d == 'x') = false ∧
    (digitChar d == 'X') = false ∧
    Char.isDigit (digitChar d) = true := by
  interval_cases d <;> exact ⟨rfl, rfl, rfl, rfl, rfl, rfl⟩

theorem parseIntStr_mkDigits (n : Nat) :
    parseIntStr (String.mk (natChars n)) = .finite ((n : ℤ) : ℚ) := by
  obtain ⟨c, cs, hcons⟩ := List.exists_cons_of_ne_nil (natChars_ne_nil n)
  have hmem : ∀ x ∈ natChars n, ∃ d, d < 10 ∧ x = digitChar d := natChars_digits n
  obtain ⟨d, hd, hcd⟩ := hmem c (by simp [hcons])
  have hc := digitChar_facts d hd
  have hdataEq : (String.mk (natChars n)).data = c :: cs := by simp [hcons]
  have hdrop : (c :: cs).dropWhile isJsSpace = c :: cs := by
    simp [List.dropWhile_cons, hcd, hc.1]
  have hneg : ((c :: cs).head? == some '-') = false := by
    simp only [List.head?_cons, Option.some_beq_some]
    simp [hcd]
    intro hEq
    rw [hEq] at hc
    simp at hc
  have hplus : ((c :: cs).head? == some '+') = false := by
    simp only [List.head?_cons, Option.some_beq_some]
    simp [hcd]
    intro hEq
    rw [hEq] at hc
    simp at hc
  have hhex : ((c :: cs).tail.head? == some 'x' || (c :: cs).tail.head? == some 'X') = false := by
    match cs, hcons with
    | [], _ => rfl
    | c2 :: cs2, hcons =>
      obtain ⟨d2, hd2, hcd2⟩ := hmem c2 (by simp [hcons])
      have hc2 := digitChar_facts d2 hd2
      simp only [List.tail_cons, List.head?_cons, Option.some_beq_some]
      rw [hcd2]
      simp [hc2.2.2.2.1, hc2.2.2.2.2.1]
  have halldig : ∀ x ∈ c :: cs, Char.isDigit x = true := by
    intro x hx
    obtain ⟨dx, hdx, hcdx⟩ := hmem x (by rw [hcons]; exact hx)
    rw [hcdx]
    exact (digitChar_facts dx hdx).2.2.2.2.2
  have htake : (c :: cs).takeWhile Char.isDigit = c :: cs :=
    takeWhile_eq_self_of_all _ _ halldig
  have hfold : (c :: cs).foldl (fun acc ch => acc * 10 + hexDigitVal ch) 0 = n := by
    rw [← hcons]; exact natChars_foldl n
  unfold parseIntStr
  rw [hdataEq, hdrop]
  simp only [hneg, hplus, hhex, htake, Bool.or_self, Bool.and_false, Bool.false_eq_true,
    if_false, one_mul]
  simp [hfold]

theorem parseIntStr_negDigits (n : Nat) :
    parseIntStr ("-" ++ String.mk (natChars n)) = .finite ((-(n : ℤ) : ℤ) : ℚ) := by
  obtain ⟨c, cs, hcons⟩ := List.exists_cons_of_ne_nil (natChars_ne_nil n)
  have hmem : ∀ x ∈ natChars n, ∃ d, d < 10 ∧ x = digitChar d := natChars_digits n
  have hdataEq : ("-" ++ String.mk (natChars n)).data = '-' :: (c :: cs) := by
    simp [hcons]
  have hdrop : ('-' :: (c :: cs)).dropWhile isJsSpace = '-' :: (c :: cs) := by
    rw [List.dropWhile_cons, if_neg (by decide)]
  have hhex : (cs.head? == some 'x' || cs.head? == some 'X') = false := by
    match cs, hcons with
    | [], _ => rfl
    | c2 :: cs2, hcons =>
      obtain ⟨d2, hd2, hcd2⟩ := hmem c2 (by simp [hcons])
      have hc2 := digitChar_facts d2 hd2
      simp only [List.head?_cons, Option.some_beq_some]
      rw [hcd2]
      simp [hc2.2.2.2.1, hc2.2.2.2.2.1]
  have halldig : ∀ x ∈ c :: cs, Char.isDigit x = true := by
    intro x hx
    obtain ⟨dx, hdx, hcdx⟩ := hmem x (by rw [hcons]; exact hx)
    rw [hcdx]
    exact (digitChar_facts dx hdx).2.2.2.2.2
  have htake : (c :: cs).takeWhile Char.isDigit = c :: cs :=
    takeWhile_eq_self_of_all _ _ halldig
  have hfold : (c :: cs).foldl (fun acc ch => acc * 10 + hexDigitVal ch) 0 = n := by
    rw [← hcons]; exact natChars_foldl n
  have hnegT : ((some '-' : Option Char) == some '-') = true := by decide
  unfold parseIntStr
  rw [hdataEq, hdrop]
  simp only [List.head?_cons, List.tail_cons, hnegT, Bool.true_or, if_true,
    hhex, Bool.and_false, Bool.false_eq_true, if_false, htake]
  simp [hfold]

/-- Parsing back the decimal rendering of an integer recovers it. -/
theorem parseIntStr_intDecimalString (v : ℤ) :
    parseIntStr (intDecimalString v) = .finite (v : ℚ) := by
  by_cases hv : v < 0
  · rw [intDecimalString, if_pos hv, parseIntStr_negDigits]
    congr 1
    have : ((v.natAbs : ℤ)) = -v := by omega
    rw [this]
    push_cast
    ring
  · rw [intDecimalString, if_neg hv, parseIntStr_mkDigits]
    congr 1
    have : ((v.natAbs : ℤ)) = v := by omega
    rw [this]

/-- `int.read` on an integer-valued finite number of decimal magnitude
below 10^21 returns the same number. -/
theorem intRead_intCast (v : ℤ) (hv : v.natAbs < 10 ^ 21) :
    intRead (.num (.finite (v : ℚ))) = .ok (.num (.finite (v : ℚ))) := by
  have hden : ((v : ℚ)).den = 1 := Rat.den_intCast v
  have hnum : ((v : ℚ)).num = v := Rat.num_intCast v
  have hjs : jsToString (.num (.finite (v : ℚ))) = intDecimalString v := by
    rw [jsToString]
    rw [numToString]
    rw [if_pos ⟨hden, by rw [hnum]; exact hv⟩, hnum]
  rw [intRead, parseIntJs, hjs, parseIntStr_intDecimalString]

/-! ### Lemmas: the container loops -/

theorem fieldsLoop_ok (kids : List (String × (Json → EResult))) (orig o : Json)
    (h : ∀ kc ∈ kids, ∃ v, kc.2 (getMemberTotal o kc.1) = .ok v) :
    ∃ out, fieldsLoop kids orig o = .ok out := by
  induction kids with
  | nil => exact ⟨[], rfl⟩
  | cons kc rest ih =>
    obtain ⟨k, child⟩ := kc
    obtain ⟨v, hv⟩ := h (k, child) (by simp)
    have hv2 : child (getMemberTotal o k) = .ok v := hv
    obtain ⟨out, hout⟩ := ih (fun kc2 h2 => h kc2 (by simp [h2]))
    exact ⟨(k, v) :: out, by simp only [fieldsLoop, hv2, hout]⟩

theorem fieldsLoop_fail (pre : List (String × (Json → EResult))) (k : String)
    (child : Json → EResult) (post : List (String × (Json → EResult)))
    (orig o : Json) (p : String) (g : Json)
    (hpre : ∀ kc ∈ pre, ∃ v, kc.2 (getMemberTotal o kc.1) = .ok v)
    (hfail : child (getMemberTotal o k) = .error (.validation p g)) :
    fieldsLoop (pre ++ (k, child) :: post) orig o
      = .error (.validation ("." ++ k ++ p) orig) := by
  induction pre with
  | nil => simp only [List.nil_append, fieldsLoop, hfail]
  | cons kc rest ih =>
    obtain ⟨k0, c0⟩ := kc
    obtain ⟨v, hv⟩ := hpre (k0, c0) (by simp)
    have hv2 : c0 (getMemberTotal o k0) = .ok v := hv
    have hrest2 : fieldsLoop (rest.append ((k, child) :: post)) orig o
        = Except.error (JsError.validation ("." ++ k ++ p) orig) :=
      ih (fun kc2 h2 => hpre kc2 (by simp [h2]))
    simp only [List.cons_append, fieldsLoop, hv2, hrest2]

theorem fieldsLoop_error_exists (kids : List (String × (Json → EResult)))
    (orig o : Json) :
    (∃ e, fieldsLoop kids orig o = .error e) →
    ∃ kc ∈ kids, ∃ e2, kc.2 (getMemberTotal o kc.1) = .error e2 := by
  induction kids with
  | nil => rintro ⟨e, he⟩; exact absurd he (by simp [fieldsLoop])
  | cons kc rest ih =>
    obtain ⟨k, child⟩ := kc
    rintro ⟨e, he⟩
    cases hc : child (getMemberTotal o k) with
    | error e2 => exact ⟨(k, child), by simp, e2, hc⟩
    | ok v =>
      simp only [fieldsLoop, hc] at he
      cases hr : fieldsLoop rest orig o with
      | ok out => rw [hr] at he; exact absurd he (by simp)
      | error e3 =>
        obtain ⟨kc2, hmem, he2⟩ := ih ⟨e3, hr⟩
        exact ⟨kc2, by simp [hmem], he2⟩

theorem mapWithPath_roundtrip (w r : Json → EResult) :
    ∀ (xs : List Json) (i : Nat) (o1 : Json),
      (∀ x ∈ xs, ∃ y, w x = .ok y ∧ r y = .ok x) →
      ∃ ys, mapWithPath w o1 xs i = .ok ys ∧
        ∀ o2, mapWithPath r o2 ys i = .ok xs := by
  intro xs
  induction xs with
  | nil => exact fun i o1 h => ⟨[], rfl, fun o2 => rfl⟩
  | cons x xs ih =>
    intro i o1 h
    obtain ⟨y, hw, hr⟩ := h x (by simp)
    obtain ⟨ys, hws, hrs⟩ := ih (i + 1) o1 (fun x2 h2 => h x2 (by simp [h2]))
    refine ⟨y :: ys, ?_, ?_⟩
    · simp only [mapWithPath, hw, hws]
    · intro o2
      simp only [mapWithPath, hr, hrs o2]

theorem mapWithPath_ok (f : Json → EResult) (orig : Json) :
    ∀ (xs : List Json) (i : Nat),
      (∀ x ∈ xs, ∃ y, f x = .ok y) →
      ∃ ys, mapWithPath f orig xs i = .ok ys := by
  intro xs
  induction xs with
  | nil => exact fun i h => ⟨[], rfl⟩
  | cons x xs ih =>
    intro i h
    obtain ⟨y, hy⟩ := h x (by simp)
    obtain ⟨ys, hys⟩ := ih (i + 1) (fun x2 h2 => h x2 (by simp [h2]))
    exact ⟨y :: ys, by simp only [mapWithPath, hy, hys]⟩

theorem mapWithPath_fail (child : Json → EResult) (orig : Json) :
    ∀ (pre : List Json) (x : Json) (post : List Json) (i : Nat) (p : String) (g : Json),
      (∀ a ∈ pre, ∃ y, child a = .ok y) →
      child x = .error (.validation p g) →
      mapWithPath child orig (pre ++ x :: post) i
        = .error (.validation ("[" ++ toString (i + pre.length) ++ "]" ++ p) orig) := by
  intro pre
  induction pre with
  | nil =>
    intro x post i p g hpre hx
    simp only [List.nil_append, mapWithPath, hx, List.length_nil, Nat.add_zero]
  | cons a pre ih =>
    intro x post i p g hpre hx
    obtain ⟨y, hy⟩ := hpre a (by simp)
    have hih2 : mapWithPath child orig (pre.append (x :: post)) (i + 1)
        = Except.error (JsError.validation ("[" ++ toString (i + 1 + pre.length) ++ "]" ++ p) orig) :=
      ih x post (i + 1) p g (fun b hb => hpre b (by simp [hb])) hx
    simp only [List.cons_append, mapWithPath, hy, hih2]
    have harith : i + 1 + pre.length = i + (a :: pre).length := by
      simp [List.length_cons]
      omega
    rw [harith]

theorem tupleLoop_fail (defs : List (Json → EResult)) (orig : Json) :
    ∀ (pre : List Json) (x : Json) (post : List Json) (i : Nat) (p : String)
      (g : Json) (c : Json → EResult),
      (∀ j (hj : j < pre.length), ∃ cj y, defs[i + j]? = some cj ∧ cj pre[j] = .ok y) →
      defs[i + pre.length]? = some c →
      c x = .error (.validation p g) →
      tupleLoop defs orig (pre ++ x :: post) i
        = .error (.validation ("[" ++ toString (i + pre.length) ++ "]" ++ p) orig) := by
  intro pre
  induction pre with
  | nil =>
    intro x post i p g c hpre hc hx
    simp only [List.length_nil, Nat.add_zero] at hc
    simp only [List.nil_append, tupleLoop, hc, hx, List.length_nil, Nat.add_zero]
  | cons a pre ih =>
    intro x post i p g c hpre hc hx
    obtain ⟨c0, y0, hc0, hy0⟩ := hpre 0 (by simp)
    simp only [Nat.add_zero] at hc0
    simp only [List.getElem_cons_zero] at hy0
    have hpre2 : ∀ j (hj : j < pre.length),
        ∃ cj y, defs[i + 1 + j]? = some cj ∧ cj pre[j] = .ok y := by
      intro j hj
      obtain ⟨cj, y, h1, h2⟩ := hpre (j + 1) (by simp; omega)
      refine ⟨cj, y, ?_, ?_⟩
      · rw [show i + 1 + j = i + (j + 1) from by omega]
        exact h1
      · simpa using h2
    have hc2 : defs[i + 1 + pre.length]? = some c := by
      rw [show i + 1 + pre.length = i + (a :: pre).length from by simp; omega]
      exact hc
    have hih2 : tupleLoop defs orig (pre.append (x :: post)) (i + 1)
        = Except.error (JsError.validation
            ("[" ++ toString (i + 1 + pre.length) ++ "]" ++ p) orig) :=
      ih x post (i + 1) p g c hpre2 hc2 hx
    simp only [List.cons_append, tupleLoop, hc0, hy0, hih2]
    have harith : i + 1 + pre.length = i + (a :: pre).length := by
      simp [List.length_cons]
      omega
    rw [harith]

theorem tupleLoop_typeError (defs : List (Json → EResult)) (orig : Json) :
    ∀ (pre : List Json) (x : Json) (post : List Json) (i : Nat),
      (∀ j (hj : j < pre.length), ∃ cj y, defs[i + j]? = some cj ∧ cj pre[j] = .ok y) →
      defs[i + pre.length]? = none →
      tupleLoop defs orig (pre ++ x :: post) i = .error .typeError := by
  intro pre
  induction pre with
  | nil =>
    intro x post i hpre hc
    simp only [List.length_nil, Nat.add_zero] at hc
    simp only [List.nil_append, tupleLoop, hc]
  | cons a pre ih =>
    intro x post i hpre hc
    obtain ⟨c0, y0, hc0, hy0⟩ := hpre 0 (by simp)
    simp only [Nat.add_zero] at hc0
    simp only [List.getElem_cons_zero] at hy0
    have hpre2 : ∀ j (hj : j < pre.length),
        ∃ cj y, defs[i + 1 + j]? = some cj ∧ cj pre[j] = .ok y := by
      intro j hj
      obtain ⟨cj, y, h1, h2⟩ := hpre (j + 1) (by simp; omega)
      refine ⟨cj, y, ?_, ?_⟩
      · rw [show i + 1 + j = i + (j + 1) from by omega]
        exact h1
      · simpa using h2
    have hc2 : defs[i + 1 + pre.length]? = none := by
      rw [show i + 1 + pre.length = i + (a :: pre).length from by simp; omega]
      exact hc
    have hih2 : tupleLoop defs orig (pre.append (x :: post)) (i + 1)
        = .error .typeError := ih x post (i + 1) hpre2 hc2
    simp only [List.cons_append, tupleLoop, hc0, hy0, hih2]

theorem mapParts_forall₂ (o : Json) :
    ∀ (parts : List (Json → EResult)) (rs : List Json),
      List.Forall₂ (fun f rr => f o = .ok rr) parts rs →
      mapParts parts o = .ok rs := by
  intro parts rs h
  induction h with
  | nil => rfl
  | cons hfr _ ih2 =>
    simp only [mapParts, hfr, ih2]

theorem mapParts_fail (o : Json) :
    ∀ (pre : List (Json → EResult)) (f : Json → EResult)
      (post : List (Json → EResult)) (e : JsError),
      (∀ g ∈ pre, ∃ v, g o = .ok v) →
      f o = .error e →
      mapParts (pre ++ f :: post) o = .error e := by
  intro pre
  induction pre with
  | nil =>
    intro f post e hpre hf
    simp only [List.nil_append, mapParts, hf]
  | cons g pre ih =>
    intro f post e hpre hf
    obtain ⟨v, hv⟩ := hpre g (by simp)
    have hih2 : mapParts (pre.append (f :: post)) o = .error e :=
      ih f post e (fun g2 h2 => hpre g2 (by simp [h2])) hf
    simp only [List.cons_append, mapParts, hv, hih2]

theorem migrateFromAux_eq_foldl :
    ∀ (fuel : Nat) (migs : List (Json → Json)) (v : Nat) (data : Json),
      migs.length ≤ v + fuel →
      migrateFromAux fuel migs v data
        = (migs.drop v).foldl (fun d m => m d) data := by
  intro fuel
  induction fuel with
  | zero =>
    intro migs v data h
    rw [migrateFromAux, List.drop_eq_nil_of_le (by omega), List.foldl_nil]
  | succ fuel ih =>
    intro migs v data h
    by_cases hv : v < migs.length
    · rw [migrateFromAux, dif_pos hv, ih migs (v + 1) _ (by omega),
        List.drop_eq_getElem_cons hv, List.foldl_cons]
      rfl
    · rw [migrateFromAux, dif_neg hv, List.drop_eq_nil_of_le (by omega), List.foldl_nil]

/-- The migration while-loop applies exactly the migrations from index `v`
on, in order, to the accumulated payload. -/
theorem migrateFrom_eq_foldl (migs : List (Json → Json)) (v : Nat) (data : Json) :
    migrateFrom migs v data = (migs.drop v).foldl (fun d m => m d) data :=
  migrateFromAux_eq_foldl (migs.length + 1) migs v data (by omega)

/-! ### Lemmas: Object.assign merge and key lookup -/

theorem lookup_map_replace_self (k : String) (v : Json) :
    ∀ kvs : List (String × Json),
      (kvs.map (fun kv => if kv.1 == k then (k, v) else kv)).lookup k
        = if kvs.any (fun kv => kv.1 == k) then some v else none := by
  intro kvs
  induction kvs with
  | nil => rfl
  | cons kv rest ih =>
    obtain ⟨k1, v1⟩ := kv
    by_cases h : k1 = k
    · subst h
      have hb : (k1 == k1) = true := beq_self_eq_true k1
      simp only [List.map_cons, List.any_cons, hb, if_true, Bool.true_or,
        List.lookup_cons]
    · have hb : (k1 == k) = false := beq_eq_false_iff_ne.mpr h
      have hb2 : (k == k1) = false := beq_eq_false_iff_ne.mpr (Ne.symm h)
      simp only [List.map_cons, List.any_cons, hb, hb2, if_false, Bool.false_or,
        List.lookup_cons, ih, Bool.false_eq_true]

theorem lookup_map_replace_other (k k2 : String) (v : Json) (hne : k2 ≠ k) :
    ∀ kvs : List (String × Json),
      (kvs.map (fun kv => if kv.1 == k then (k, v) else kv)).lookup k2
        = kvs.lookup k2 := by
  intro kvs
  induction kvs with
  | nil => rfl
  | cons kv rest ih =>
    obtain ⟨k1, v1⟩ := kv
    by_cases h : k1 = k
    · subst h
      have hb : (k1 == k1) = true := beq_self_eq_true k1
      have hb2 : (k2 == k1) = false := beq_eq_false_iff_ne.mpr hne
      simp only [List.map_cons, hb, if_true, List.lookup_cons, hb2, ih]
    · have hb : (k1 == k) = false := beq_eq_false_iff_ne.mpr h
      by_cases h2 : k2 = k1
      · subst h2
        have hb2 : (k2 == k2) = true := beq_self_eq_true k2
        simp only [List.map_cons, hb, if_false, List.lookup_cons, hb2,
          Bool.false_eq_true]
      · have hb2 : (k2 == k1) = false := beq_eq_false_iff_ne.mpr h2
        simp only [List.map_cons, hb, if_false, List.lookup_cons, hb2, ih,
          Bool.false_eq_true]

theorem lookup_eq_none_of_not_any (k : String) :
    ∀ kvs : List (String × Json),
      kvs.any (fun kv => kv.1 == k) = false → kvs.lookup k = none := by
  intro kvs h
  rw [List.lookup_eq_none_iff]
  intro p hp
  simp only [List.any_eq_false] at h
  have hpk := h p hp
  simp only [bne_iff_ne, ne_eq]
  intro hEq
  rw [hEq] at hpk
  simp at hpk

/-- Key lookup after a single JS property assignment. -/
theorem lookup_setField (kvs : List (String × Json)) (k : String) (v : Json)
    (k2 : String) :
    (setField kvs k v).lookup k2 = if k2 = k then some v else kvs.lookup k2 := by
  unfold setField
  by_cases hany : kvs.any (fun kv => kv.1 == k) = true
  · rw [if_pos hany]
    by_cases hk : k2 = k
    · subst hk
      rw [lookup_map_replace_self, if_pos hany, if_pos rfl]
    · rw [lookup_map_replace_other k k2 v hk, if_neg hk]
  · rw [if_neg hany]
    rw [List.lookup_append]
    by_cases hk : k2 = k
    · subst hk
      rw [lookup_eq_none_of_not_any k2 kvs (Bool.eq_false_iff.mpr hany)]
      simp [List.lookup_cons]
    · rw [if_neg hk]
      have hb2 : (k2 == k) = false := beq_eq_false_iff_ne.mpr hk
      have h2 : ([(k, v)] : List (String × Json)).lookup k2 = none := by
        simp only [List.lookup_cons, hb2]
        rfl
      rw [h2]
      cases kvs.lookup k2 <;> rfl

/-- The value the combine claim predicts for a key after the merge: the
value from the last constituent record that contains the key. -/
def lastWins (rss : List (List (String × Json))) (k : String) : Option Json :=
  rss.foldl
    (fun a kvs =>
      match kvs.lookup k with
      | some v => some v
      | none => a)
    none

theorem fieldsFold_lookup (k : String) :
    ∀ (src acc : List (String × Json)),
      (src.map Prod.fst).Nodup →
      ((src.foldl (fun a kv => setField a kv.1 kv.2) acc).lookup k)
        = match src.lookup k with
          | some v => some v
          | none => acc.lookup k := by
  intro src
  induction src with
  | nil => intro acc h; rfl
  | cons kv rest ih =>
    intro acc h
    obtain ⟨k1, v1⟩ := kv
    simp only [List.map_cons, List.nodup_cons] at h
    obtain ⟨hk1, hnod⟩ := h
    simp only [List.foldl_cons]
    rw [ih (setField acc k1 v1) hnod]
    by_cases hk : k = k1
    · subst hk
      have hrest : rest.lookup k = none := by
        rw [List.lookup_eq_none_iff]
        intro p hp
        simp only [bne_iff_ne, ne_eq]
        intro hEq
        exact hk1 (by rw [hEq]; exact List.mem_map_of_mem Prod.fst hp)
      simp [hrest, lookup_setField]
    · have hb : (k == k1) = false := beq_eq_false_iff_ne.mpr hk
      have hcons : ((k1, v1) :: rest).lookup k = rest.lookup k := by
        simp only [List.lookup_cons, hb]
      rw [hcons]
      cases hr : rest.lookup k with
      | some v => simp [hr]
      | none =>
        simp only [hr]
        rw [lookup_setField, if_neg hk]

theorem objectAssign_obj_lookup (k : String) :
    ∀ (rss : List (List (String × Json))) (acc : List (String × Json)),
      (∀ kvs ∈ rss, (kvs.map Prod.fst).Nodup) →
      (((rss.map Json.obj).foldl assignOne acc).lookup k)
        = rss.foldl
            (fun a kvs =>
              match kvs.lookup k with
              | some v => some v
              | none => a)
            (acc.lookup k) := by
  intro rss
  induction rss with
  | nil => intro acc h; rfl
  | cons kvs rss ih =>
    intro acc h
    simp only [List.map_cons, List.foldl_cons]
    have h1 : assignOne acc (Json.obj kvs)
        = kvs.foldl (fun a kv => setField a kv.1 kv.2) acc := rfl
    rw [h1, ih _ (fun x hx => h x (by simp [hx]))]
    rw [fieldsFold_lookup k kvs acc (h kvs (by simp))]

/-! ### The claims -/

/-- C1, counterexample: the round-trip law as stated fails already on the
`int` portal. The value 123.4 (the rational `q1234 = 617/5`) is a finite
number, so `int.write` accepts it — but it writes the truncation 123, and
`int.read` on 123 returns 123, which does not deep-equal 123.4. -/
theorem c1_roundtrip_counterexample :
    intWrite (.num (.finite q1234)) = .ok (.num (.finite 123)) ∧
    intRead (.num (.finite 123)) = .ok (.num (.finite 123)) ∧
    q1234 = 617 / 5 ∧ (123 : ℚ) ≠ q1234 :=
  ⟨rfl, rfl, q1234_eq_div, by decide⟩

/-- C1, amended: the round-trip law holds for `int` only on values that
are already integral (and within the exactly-representable range
`|v| ≤ 2^53`, where the decimal rendering read back by `parseInt` is the
identity); for non-integral accepted input the read-back is the
truncation, not the original (see the counterexample). For
`array(inner)` the law holds as claimed: every list whose elements
round-trip through the inner portal round-trips through the array
portal. -/
theorem c1_roundtrip_amended :
    (∀ v : ℤ, v.natAbs ≤ 2 ^ 53 →
      intWrite (.num (.finite (v : ℚ))) = .ok (.num (.finite (v : ℚ))) ∧
      intRead (.num (.finite (v : ℚ))) = .ok (.num (.finite (v : ℚ)))) ∧
    (∀ (w r : Json → EResult) (xs : List Json),
      (∀ x ∈ xs, ∃ y, w x = .ok y ∧ r y = .ok x) →
      ∃ ys, arrayWrite w (.arr xs) = .ok (.arr ys) ∧
        arrayRead r (.arr ys) = .ok (.arr xs)) := by
  constructor
  · intro v hv
    constructor
    · have ht : jsTrunc (v : ℚ) = v := by
        rw [jsTrunc, Rat.num_intCast, Rat.den_intCast]
        simp
      simp only [intWrite, ht]
    · exact intRead_intCast v (lt_of_le_of_lt hv (by norm_num))
  · intro w r xs h
    obtain ⟨ys, hws, hrs⟩ := mapWithPath_roundtrip w r xs 0 (.arr xs) h
    refine ⟨ys, ?_, ?_⟩
    · simp only [arrayWrite, hws]
    · simp only [arrayRead, hrs (.arr ys)]

/-- C1, witness for the amended round-trip law: the integer 5 through
`int`, and the one-element string list through `array(str)`. -/
theorem c1_roundtrip_amended_witness :
    ((5 : ℤ).natAbs ≤ 2 ^ 53 ∧
      intWrite (.num (.finite ((5 : ℤ) : ℚ))) = .ok (.num (.finite ((5 : ℤ) : ℚ)))) ∧
    ∃ ys, arrayWrite strWrite (.arr [Json.str "a"]) = .ok (.arr ys) ∧
      arrayRead strRead (.arr ys) = .ok (.arr [Json.str "a"]) := by
  refine ⟨⟨by norm_num, (c1_roundtrip_amended.1 5 (by norm_num)).1⟩, ?_⟩
  refine c1_roundtrip_amended.2 strWrite strRead [Json.str "a"] ?_
  intro x hx
  simp only [List.mem_singleton] at hx
  subst hx
  exact ⟨Json.str "a", rfl, rfl⟩

/-- C5: refuted by the code — not every failure is a ValidationError.
`variant(...).read(null)` evaluates `null.type` and crashes with a
TypeError, and `tuple(int).read([1,2])` reaches `def[1].read` where
`def[1]` is `undefined`, also a TypeError; both escape the
`instanceof ValidationError` catch filter unchanged. -/
theorem c5_single_error_kind_refuted :
    variantRead [("circle", objRead [("radius", intRead)])] .null
      = .error .typeError ∧
    tupleRead [intRead] (.arr [.num (.finite 1), .num (.finite 2)])
      = .error .typeError :=
  ⟨rfl, rfl⟩

/-- C6: refuted by the code — tuple read does not ignore trailing extra
elements. An input of the declared arity reads fine, but one extra
element makes the loop fetch the undefined serializer `def[2]` and crash
with a TypeError instead of ignoring the element. -/
theorem c6_tuple_arity_refuted :
    tupleRead [intRead, strRead] (.arr [.num (.finite 12), .str "a"])
      = .ok (.arr [.num (.finite 12), .str "a"]) ∧
    tupleRead [intRead, strRead] (.arr [.num (.finite 12), .str "a", .bool true])
      = .error .typeError :=
  ⟨rfl, rfl⟩

/-- C7: the `int.write` contract. It succeeds exactly on finite numbers,
returning the truncation toward zero (so 123.4 writes as 123 and -123.4
as -123), and fails with a ValidationError on NaN, both infinities and
every non-number value. -/
theorem c7_int_write_contract :
    (∀ q : ℚ, intWrite (.num (.finite q)) = .ok (.num (.finite ((jsTrunc q : ℤ) : ℚ)))) ∧
    (∀ j : Json, (∀ q : ℚ, j ≠ .num (.finite q)) →
      intWrite j = .error (.validation "" j)) ∧
    intWrite (.num (.finite q1234)) = .ok (.num (.finite 123)) ∧
    intWrite (.num (.finite (-q1234))) = .ok (.num (.finite (-123))) ∧
    intWrite (.num .nan) = .error (.validation "" (.num .nan)) ∧
    intWrite (.num .inf) = .error (.validation "" (.num .inf)) ∧
    intWrite (.num .negInf) = .error (.validation "" (.num .negInf)) ∧
    intWrite (.str "hi") = .error (.validation "" (.str "hi")) := by
  refine ⟨fun _ => rfl, ?_, rfl, rfl, rfl, rfl, rfl, rfl⟩
  intro j hj
  cases j with
  | num n =>
    cases n with
    | finite q => exact absurd rfl (hj q)
    | nan => rfl
    | inf => rfl
    | negInf => rfl
  | null => rfl
  | undefinedV => rfl
  | bool b => rfl
  | str s => rfl
  | arr xs => rfl
  | obj kvs => rfl

/-- C7, witness: a boolean is not a finite number, so `int.write`
rejects it with a ValidationError. -/
theorem c7_int_write_contract_witness :
    intWrite (.bool true) = .error (.validation "" (.bool true)) :=
  c7_int_write_contract.2.1 (.bool true) (fun _ h => Json.noConfusion h)

/-- C8: `partial_obj(\x7bx: str, y: array(int)\x7d)` round-trips the record
`\x7by: [1,2,3]\x7d` with x absent: write succeeds (emitting `x: null`), read of
the written value returns the record with `x` holding the absent
sentinel, which deep-equals the original (scrub removes
undefined-valued fields). The same record fails under the
fully-required `obj` combinator in both directions, with a
ValidationError at path `.x`. -/
theorem c8_partial_obj_roundtrip :
    partialObjWrite [("x", strWrite), ("y", arrayWrite intWrite)]
        (.obj [("y", .arr [.num (.finite 1), .num (.finite 2), .num (.finite 3)])])
      = .ok (.obj [("x", .null),
          ("y", .arr [.num (.finite 1), .num (.finite 2), .num (.finite 3)])]) ∧
    partialObjRead [("x", strRead), ("y", arrayRead intRead)]
        (.obj [("x", .null),
          ("y", .arr [.num (.finite 1), .num (.finite 2), .num (.finite 3)])])
      = .ok (.obj [("x", .undefinedV),
          ("y", .arr [.num (.finite 1), .num (.finite 2), .num (.finite 3)])]) ∧
    scrub (.obj [("x", .undefinedV),
          ("y", .arr [.num (.finite 1), .num (.finite 2), .num (.finite 3)])])
      = .obj [("y", .arr [.num (.finite 1), .num (.finite 2), .num (.finite 3)])] ∧
    objWrite [("x", strWrite), ("y", arrayWrite intWrite)]
        (.obj [("y", .arr [.num (.finite 1), .num (.finite 2), .num (.finite 3)])])
      = .error (.validation ".x"
          (.obj [("y", .arr [.num (.finite 1), .num (.finite 2), .num (.finite 3)])])) ∧
    objRead [("x", strRead), ("y", arrayRead intRead)]
        (.obj [("y", .arr [.num (.finite 1), .num (.finite 2), .num (.finite 3)])])
      = .error (.validation ".x"
          (.obj [("y", .arr [.num (.finite 1), .num (.finite 2), .num (.finite 3)])])) :=
  ⟨rfl, rfl, rfl, rfl, rfl⟩

/-- The tuple element loop on a two-element list whose two children
succeed. -/
theorem tupleLoop_pair (f g : Json → EResult) (orig a b ra rb : Json)
    (ha : f a = .ok ra) (hb : g b = .ok rb) :
    tupleLoop [f, g] orig [a, b] 0 = .ok [ra, rb] := by
  simp [tupleLoop, ha, hb]

/-- C3: a versioned portal always writes at its latest version. For any
schema writer, any migration list and any value the schema writer
accepts (producing payload `p`), the versioned write is exactly the
2-element sequence `[migration count, p]` — the tag is always the
migration count, never a smaller number. -/
theorem c3_versioned_write_latest (sw : Json → EResult) (migs : List (Json → Json))
    (t p : Json) (h : sw t = .ok p) :
    versionedWrite sw migs t = .ok (.arr [.num (.finite (migs.length : ℚ)), p]) := by
  have hN : jsTrunc ((migs.length : ℕ) : ℚ) = (migs.length : ℤ) := by
    rw [jsTrunc, Rat.num_natCast, Rat.den_natCast]
    simp
  have h0 : intWrite (.num (.finite (migs.length : ℚ)))
      = .ok (.num (.finite (migs.length : ℚ))) := by
    have hc : (((migs.length : ℤ)) : ℚ) = (migs.length : ℚ) := by push_cast; rfl
    simp only [intWrite, hN, hc]
  have hr : rawWrite p = .ok p := rfl
  simp only [versionedWrite, h, versionedInnerWrite, tupleWrite]
  rw [tupleLoop_pair intWrite rawWrite _ _ _ _ _ h0 hr]

/-- C3, witness: a two-migration versioned portal over the `int` schema
writes the value 5 as `[2, 5]`. -/
theorem c3_versioned_write_latest_witness :
    intWrite (.num (.finite 5)) = .ok (.num (.finite 5)) ∧
    versionedWrite intWrite [fun d => d, fun d => d] (.num (.finite 5))
      = .ok (.arr [.num (.finite 2), .num (.finite 5)]) := by
  refine ⟨rfl, ?_⟩
  have h := c3_versioned_write_latest intWrite [fun d => d, fun d => d]
    (.num (.finite 5)) (.num (.finite 5)) rfl
  simpa using h

/-- C4: versioned read with an integer tag v ≥ 0 (within the exactly
representable range) applies migrations v, v+1, …, N-1 in order — each
receiving the previous output, which is exactly a left fold over
`migs.drop v` — and hands the accumulated payload to the schema reader;
in particular for v ≥ N the drop is empty and the un-migrated payload
goes straight to the schema reader. -/
theorem c4_versioned_read_migrations (sr : Json → EResult)
    (migs : List (Json → Json)) (v : ℕ) (payload : Json) (hv : v ≤ 2 ^ 53) :
    versionedRead sr migs (.arr [.num (.finite (v : ℚ)), payload])
      = sr ((migs.drop v).foldl (fun d m => m d) payload) := by
  have hcast : ((v : ℤ) : ℚ) = (v : ℚ) := by push_cast; rfl
  have hIR : intRead (.num (.finite (v : ℚ))) = .ok (.num (.finite (v : ℚ))) := by
    rw [← hcast]
    refine intRead_intCast (v : ℤ) ?_
    have h53 : (2 : ℕ) ^ 53 < 10 ^ 21 := by norm_num
    omega
  have hinner : versionedInnerRead (.arr [.num (.finite (v : ℚ)), payload])
      = .ok (.arr [.num (.finite (v : ℚ)), payload]) := by
    have hraw : rawRead payload = .ok payload := rfl
    simp only [versionedInnerRead, tupleRead]
    rw [tupleLoop_pair intRead rawRead _ _ _ _ _ hIR hraw]
  have hm0 : member (.arr [.num (.finite (v : ℚ)), payload]) "0"
      = .ok (.num (.finite (v : ℚ))) := rfl
  have hm1 : member (.arr [.num (.finite (v : ℚ)), payload]) "1"
      = .ok payload := rfl
  have hmig : migrateData migs (.num (.finite (v : ℚ))) payload
      = .ok ((migs.drop v).foldl (fun d m => m d) payload) := by
    simp only [migrateData]
    by_cases hlt : (v : ℚ) < (migs.length : ℚ)
    · rw [if_pos hlt, if_pos ⟨by positivity, Rat.den_natCast v⟩]
      have hton : ((v : ℚ)).num.toNat = v := by
        rw [Rat.num_natCast]
        simp
      rw [hton, migrateFrom_eq_foldl]
    · rw [if_neg hlt]
      have hge : migs.length ≤ v := by exact_mod_cast not_lt.mp hlt
      rw [List.drop_eq_nil_of_le hge, List.foldl_nil]
  simp only [versionedRead, hinner, hm0, hm1, hmig]

/-- C4, witness: a two-migration portal with tag 0 applies both
migrations in order; with tag 5 (beyond the count) it applies none. -/
theorem c4_versioned_read_migrations_witness :
    (0 : ℕ) ≤ 2 ^ 53 ∧ (5 : ℕ) ≤ 2 ^ 53 ∧
    versionedRead rawRead [fun _ => .str "m0", fun d => .arr [d]]
        (.arr [.num (.finite ((0 : ℕ) : ℚ)), .null])
      = .ok (.arr [.str "m0"]) ∧
    versionedRead rawRead [fun _ => .str "m0", fun d => .arr [d]]
        (.arr [.num (.finite ((5 : ℕ) : ℚ)), .str "p"])
      = .ok (.str "p") := by
  refine ⟨by norm_num, by norm_num, ?_, ?_⟩
  · have h := c4_versioned_read_migrations rawRead
      [fun _ => .str "m0", fun d => .arr [d]] 0 .null (by norm_num)
    simpa using h
  · have h := c4_versioned_read_migrations rawRead
      [fun _ => .str "m0", fun d => .arr [d]] 5 (.str "p") (by norm_num)
    simpa using h

/-- C2: path precision of failures. In each container combinator (array,
obj, partial_obj, tuple, variant), when the (first failing) child read
or write fails with a ValidationError carrying path `p`, the container
re-raises a ValidationError whose path is `p` prefixed with the child
locator (`[i]` for elements, `.key` for fields, `<tag>` for the union
branch) and whose carried input is the whole input the container itself
received; and the rendered message is exactly
`"data" ++ path ++ " does not match serializer in data " ++ input-as-JSON-text`. -/
theorem c2_path_precision :
    (∀ (child : Json → EResult) (pre : List Json) (x : Json) (post : List Json)
        (p : String) (g : Json),
      (∀ a ∈ pre, ∃ y, child a = .ok y) →
      child x = .error (.validation p g) →
      arrayRead child (.arr (pre ++ x :: post))
        = .error (.validation ("[" ++ toString pre.length ++ "]" ++ p)
            (.arr (pre ++ x :: post)))) ∧
    (∀ (child : Json → EResult) (pre : List Json) (x : Json) (post : List Json)
        (p : String) (g : Json),
      (∀ a ∈ pre, ∃ y, child a = .ok y) →
      child x = .error (.validation p g) →
      arrayWrite child (.arr (pre ++ x :: post))
        = .error (.validation ("[" ++ toString pre.length ++ "]" ++ p)
            (.arr (pre ++ x :: post)))) ∧
    (∀ (pre : List (String × (Json → EResult))) (k : String)
        (child : Json → EResult) (post : List (String × (Json → EResult)))
        (kvs : List (String × Json)) (p : String) (g : Json),
      (∀ kc ∈ pre, ∃ v, kc.2 (getMemberTotal (.obj kvs) kc.1) = .ok v) →
      child (getMemberTotal (.obj kvs) k) = .error (.validation p g) →
      objRead (pre ++ (k, child) :: post) (.obj kvs)
        = .error (.validation ("." ++ k ++ p) (.obj kvs))) ∧
    (∀ (pre : List (String × (Json → EResult))) (k : String)
        (child : Json → EResult) (post : List (String × (Json → EResult)))
        (kvs : List (String × Json)) (p : String) (g : Json),
      (∀ kc ∈ pre, ∃ v, kc.2 (getMemberTotal (.obj kvs) kc.1) = .ok v) →
      child (getMemberTotal (.obj kvs) k) = .error (.validation p g) →
      objWrite (pre ++ (k, child) :: post) (.obj kvs)
        = .error (.validation ("." ++ k ++ p) (.obj kvs))) ∧
    (∀ (pre : List (String × (Json → EResult))) (k : String)
        (child : Json → EResult) (post : List (String × (Json → EResult)))
        (kvs : List (String × Json)) (p : String) (g : Json),
      (∀ kc ∈ pre, ∃ v, optionalRead kc.2 (getMemberTotal (.obj kvs) kc.1) = .ok v) →
      optionalRead child (getMemberTotal (.obj kvs) k) = .error (.validation p g) →
      partialObjRead (pre ++ (k, child) :: post) (.obj kvs)
        = .error (.validation ("." ++ k ++ p) (.obj kvs))) ∧
    (∀ (pre : List (String × (Json → EResult))) (k : String)
        (child : Json → EResult) (post : List (String × (Json → EResult)))
        (kvs : List (String × Json)) (p : String) (g : Json),
      (∀ kc ∈ pre, ∃ v, optionalWrite kc.2 (getMemberTotal (.obj kvs) kc.1) = .ok v) →
      optionalWrite child (getMemberTotal (.obj kvs) k) = .error (.validation p g) →
      partialObjWrite (pre ++ (k, child) :: post) (.obj kvs)
        = .error (.validation ("." ++ k ++ p) (.obj kvs))) ∧
    (∀ (defs : List (Json → EResult)) (pre : List Json) (x : Json)
        (post : List Json) (p : String) (g : Json) (c : Json → EResult),
      (∀ j (hj : j < pre.length), ∃ cj y, defs[j]? = some cj ∧ cj pre[j] = .ok y) →
      defs[pre.length]? = some c →
      c x = .error (.validation p g) →
      tupleRead defs (.arr (pre ++ x :: post))
        = .error (.validation ("[" ++ toString pre.length ++ "]" ++ p)
            (.arr (pre ++ x :: post)))) ∧
    (∀ (defs : List (Json → EResult)) (pre : List Json) (x : Json)
        (post : List Json) (p : String) (g : Json) (c : Json → EResult),
      (∀ j (hj : j < pre.length), ∃ cj y, defs[j]? = some cj ∧ cj pre[j] = .ok y) →
      defs[pre.length]? = some c →
      c x = .error (.validation p g) →
      tupleWrite defs (.arr (pre ++ x :: post))
        = .error (.validation ("[" ++ toString pre.length ++ "]" ++ p)
            (.arr (pre ++ x :: post)))) ∧
    (∀ (branches : List (String × (Json → EResult))) (kvs : List (String × Json))
        (tag : String) (child : Json → EResult) (p : String) (g : Json),
      kvs.lookup "type" = some (.str tag) →
      branches.find? (fun b => b.1 == tag) = some (tag, child) →
      child (.obj kvs) = .error (.validation p g) →
      variantRead branches (.obj kvs)
        = .error (.validation ("<" ++ tag ++ ">" ++ p) (.obj kvs))) ∧
    (∀ (branches : List (String × (Json → EResult))) (kvs : List (String × Json))
        (tag : String) (child : Json → EResult) (p : String) (g : Json),
      kvs.lookup "type" = some (.str tag) →
      branches.find? (fun b => b.1 == tag) = some (tag, child) →
      child (.obj kvs) = .error (.validation p g) →
      variantWrite branches (.obj kvs)
        = .error (.validation ("<" ++ tag ++ ">" ++ p) (.obj kvs))) ∧
    (∀ (p : String) (g : Json),
      errorMessage p g
        = "data" ++ p ++ " does not match serializer in data " ++ renderedGot g) := by
  refine ⟨?_, ?_, ?_, ?_, ?_, ?_, ?_, ?_, ?_, ?_, fun p g => rfl⟩
  · intro child pre x post p g hpre hx
    have hm := mapWithPath_fail child (.arr (pre ++ x :: post)) pre x post 0 p g hpre hx
    rw [Nat.zero_add] at hm
    simp only [arrayRead, hm]
  · intro child pre x post p g hpre hx
    have hm := mapWithPath_fail child (.arr (pre ++ x :: post)) pre x post 0 p g hpre hx
    rw [Nat.zero_add] at hm
    simp only [arrayWrite, hm]
  · intro pre k child post kvs p g hpre hfail
    have hm := fieldsLoop_fail pre k child post (.obj kvs) (.obj kvs) p g hpre hfail
    simp only [objRead, Json.isObjectInst, Json.isArrayInst, hm]
    rfl
  · intro pre k child post kvs p g hpre hfail
    have hm := fieldsLoop_fail pre k child post (.obj kvs) (.obj kvs) p g hpre hfail
    simp only [objWrite, Json.isObjectInst, hm]
    rfl
  · intro pre k child post kvs p g hpre hfail
    have hpre2 : ∀ kc ∈ pre.map (fun kc => (kc.1, optionalRead kc.2)),
        ∃ v, kc.2 (getMemberTotal (.obj kvs) kc.1) = .ok v := by
      intro kc hkc
      simp only [List.mem_map] at hkc
      obtain ⟨kc0, hkc0, rfl⟩ := hkc
      exact hpre kc0 hkc0
    have hm := fieldsLoop_fail (pre.map (fun kc => (kc.1, optionalRead kc.2))) k
      (optionalRead child) (post.map (fun kc => (kc.1, optionalRead kc.2)))
      (.obj kvs) (.obj kvs) p g hpre2 hfail
    simp only [partialObjRead, Json.isObjectInst, Json.isArrayInst,
      List.map_append, List.map_cons, hm]
    rfl
  · intro pre k child post kvs p g hpre hfail
    have hpre2 : ∀ kc ∈ pre.map (fun kc => (kc.1, optionalWrite kc.2)),
        ∃ v, kc.2 (getMemberTotal (.obj kvs) kc.1) = .ok v := by
      intro kc hkc
      simp only [List.mem_map] at hkc
      obtain ⟨kc0, hkc0, rfl⟩ := hkc
      exact hpre kc0 hkc0
    have hm := fieldsLoop_fail (pre.map (fun kc => (kc.1, optionalWrite kc.2))) k
      (optionalWrite child) (post.map (fun kc => (kc.1, optionalWrite kc.2)))
      (.obj kvs) (.obj kvs) p g hpre2 hfail
    simp only [partialObjWrite, Json.isObjectInst, Json.isArrayInst,
      List.map_append, List.map_cons, hm]
    rfl
  · intro defs pre x post p g c hpre hc hfail
    have hpre0 : ∀ j (hj : j < pre.length),
        ∃ cj y, defs[0 + j]? = some cj ∧ cj pre[j] = .ok y := by
      intro j hj
      simpa using hpre j hj
    have hc0 : defs[0 + pre.length]? = some c := by simpa using hc
    have hm := tupleLoop_fail defs (.arr (pre ++ x :: post)) pre x post 0 p g c
      hpre0 hc0 hfail
    rw [Nat.zero_add] at hm
    simp only [tupleRead, hm]
  · intro defs pre x post p g c hpre hc hfail
    have hpre0 : ∀ j (hj : j < pre.length),
        ∃ cj y, defs[0 + j]? = some cj ∧ cj pre[j] = .ok y := by
      intro j hj
      simpa using hpre j hj
    have hc0 : defs[0 + pre.length]? = some c := by simpa using hc
    have hm := tupleLoop_fail defs (.arr (pre ++ x :: post)) pre x post 0 p g c
      hpre0 hc0 hfail
    rw [Nat.zero_add] at hm
    simp only [tupleWrite, hm]
  · intro branches kvs tag child p g hty hfind hfail
    have hmem : member (.obj kvs) "type" = .ok (.str tag) := by
      simp [member, isNullish, getMemberTotal, hty]
    simp only [variantRead, hmem, findBranch, hfind, hfail, tyText]
  · intro branches kvs tag child p g hty hfind hfail
    have hmem : member (.obj kvs) "type" = .ok (.str tag) := by
      simp [member, isNullish, getMemberTotal, hty]
    simp only [variantWrite, hmem, findBranch, hfind, hfail, tyText]

/-- C2, witness: the repository's own test case — reading
`\x7bx: [1, true]\x7d` through `obj(\x7bx: array(int)\x7d)` fails with path `.x[1]`,
carrying the whole object, and the rendered message embeds the original
input as JSON text. -/
theorem c2_path_precision_witness :
    (arrayRead intRead
        (getMemberTotal (.obj [("x", .arr [.num (.finite 1), .bool true])]) "x")
      = .error (.validation "[1]" (.arr [.num (.finite 1), .bool true]))) ∧
    objRead [("x", arrayRead intRead)]
        (.obj [("x", .arr [.num (.finite 1), .bool true])])
      = .error (.validation ".x[1]"
          (.obj [("x", .arr [.num (.finite 1), .bool true])])) ∧
    errorMessage ".x[1]" (.obj [("x", .arr [.num (.finite 1), .bool true])])
      = "data.x[1] does not match serializer in data \x7b\"x\":[1,true]\x7d" := by
  refine ⟨rfl, ?_, rfl⟩
  have h := c2_path_precision.2.2.1 [] "x" (arrayRead intRead) []
    [("x", .arr [.num (.finite 1), .bool true])] "[1]"
    (.arr [.num (.finite 1), .bool true])
    (fun kc hkc => absurd hkc (List.not_mem_nil kc)) rfl
  simpa using h

/-- C9: combine merge semantics. Read applies every constituent reader
to the same whole input and merges the record results with
`Object.assign`, a later constituent winning on key collision (the
merged value at any key is the value from the last constituent record
containing that key); write is symmetric; and both directions fail with
the first failing constituent's error whenever one fails on the shared
input. -/
theorem c9_combine_merge :
    (∀ (parts : List (Json → EResult)) (o : Json)
        (rss : List (List (String × Json))),
      List.Forall₂ (fun f kvs => f o = .ok (.obj kvs)) parts rss →
      (∀ kvs ∈ rss, (kvs.map Prod.fst).Nodup) →
      ∃ m, combineRead parts o = .ok (.obj m) ∧
        ∀ key, m.lookup key = lastWins rss key) ∧
    (∀ (parts : List (Json → EResult)) (o : Json)
        (rss : List (List (String × Json))),
      List.Forall₂ (fun f kvs => f o = .ok (.obj kvs)) parts rss →
      (∀ kvs ∈ rss, (kvs.map Prod.fst).Nodup) →
      ∃ m, combineWrite parts o = .ok (.obj m) ∧
        ∀ key, m.lookup key = lastWins rss key) ∧
    (∀ (pre : List (Json → EResult)) (f : Json → EResult)
        (post : List (Json → EResult)) (o : Json) (e : JsError),
      (∀ g ∈ pre, ∃ v, g o = .ok v) → f o = .error e →
      combineRead (pre ++ f :: post) o = .error e) ∧
    (∀ (pre : List (Json → EResult)) (f : Json → EResult)
        (post : List (Json → EResult)) (o : Json) (e : JsError),
      (∀ g ∈ pre, ∃ v, g o = .ok v) → f o = .error e →
      combineWrite (pre ++ f :: post) o = .error e) := by
  refine ⟨?_, ?_, ?_, ?_⟩
  · intro parts o rss hall hnod
    have hmap : mapParts parts o = .ok (rss.map Json.obj) := by
      apply mapParts_forall₂
      rw [List.forall₂_map_right_iff]
      exact hall
    refine ⟨(rss.map Json.obj).foldl assignOne [], ?_, ?_⟩
    · simp only [combineRead, hmap, objectAssign]
    · intro key
      have h := objectAssign_obj_lookup key rss [] hnod
      simpa [lastWins] using h
  · intro parts o rss hall hnod
    have hmap : mapParts parts o = .ok (rss.map Json.obj) := by
      apply mapParts_forall₂
      rw [List.forall₂_map_right_iff]
      exact hall
    refine ⟨(rss.map Json.obj).foldl assignOne [], ?_, ?_⟩
    · simp only [combineWrite, hmap, objectAssign]
    · intro key
      have h := objectAssign_obj_lookup key rss [] hnod
      simpa [lastWins] using h
  · intro pre f post o e hpre hf
    have hm := mapParts_fail o pre f post e hpre hf
    simp only [combineRead, hm]
  · intro pre f post o e hpre hf
    have hm := mapParts_fail o pre f post e hpre hf
    simp only [combineWrite, hm]

/-- C9, witness: the repository's own combine test shape —
`combine(obj(\x7bx:int\x7d), obj(\x7by:str, z:bool\x7d))` reading the shared
input produces the merged record. -/
theorem c9_combine_merge_witness :
    ∃ m, combineRead [objRead [("x", intRead)], objRead [("y", strRead), ("z", boolRead)]]
        (.obj [("x", .num (.finite 123)), ("y", .str "hi"), ("z", .bool false)])
      = .ok (.obj m) ∧
      ∀ key, m.lookup key
        = lastWins [[("x", .num (.finite 123))],
            [("y", .str "hi"), ("z", .bool false)]] key := by
  refine c9_combine_merge.1 _ _ _ ?_ ?_
  · exact List.Forall₂.cons rfl (List.Forall₂.cons rfl List.Forall₂.nil)
  · intro kvs hk
    simp only [List.mem_cons, List.not_mem_nil, or_false, List.mem_singleton] at hk
    rcases hk with rfl | rfl <;> decide

/-- C10: asymmetry of obj and partial_obj write on array input.
`partial_obj.write` rejects every array outright; `obj.write` only
checks `instanceof Object` (true of arrays), so it fails exactly when
some declared field's child writer rejects the slot it reads off the
array (usually the missing property, i.e. `undefined`); with an empty
field set it succeeds on any array, returning the empty mapping, while
`obj.read` rejects every array input unconditionally. -/
theorem c10_obj_vs_partial_on_arrays :
    (∀ (kids : List (String × (Json → EResult))) (xs : List Json),
      partialObjWrite kids (.arr xs) = .error (.validation "" (.arr xs))) ∧
    (∀ (kids : List (String × (Json → EResult))) (xs : List Json),
      objRead kids (.arr xs) = .error (.validation "" (.arr xs))) ∧
    (∀ (kids : List (String × (Json → EResult))) (xs : List Json),
      (∀ kc ∈ kids, ∃ v, kc.2 (getMemberTotal (.arr xs) kc.1) = .ok v) →
      ∃ m, objWrite kids (.arr xs) = .ok (.obj m)) ∧
    (∀ (kids : List (String × (Json → EResult))) (xs : List Json) (e : JsError),
      objWrite kids (.arr xs) = .error e →
      ∃ kc ∈ kids, ∃ e2, kc.2 (getMemberTotal (.arr xs) kc.1) = .error e2) ∧
    (∀ xs : List Json, objWrite [] (.arr xs) = .ok (.obj [])) := by
  refine ⟨fun kids xs => rfl, fun kids xs => rfl, ?_, ?_, fun xs => rfl⟩
  · intro kids xs h
    have hinst : (Json.arr xs).isObjectInst = true := rfl
    obtain ⟨out, hout⟩ := fieldsLoop_ok kids (.arr xs) (.arr xs) h
    exact ⟨out, by simp [objWrite, hinst, hout]⟩
  · intro kids xs e he
    have hinst : (Json.arr xs).isObjectInst = true := rfl
    apply fieldsLoop_error_exists kids (.arr xs) (.arr xs)
    cases hr : fieldsLoop kids (.arr xs) (.arr xs) with
    | ok out =>
      exfalso
      simp [objWrite, hinst, hr] at he
    | error e2 => exact ⟨e2, rfl⟩

/-- C10, witness: `obj(\x7bx: str\x7d).write([])` fails (the child rejects the
array's missing `x` slot), and the failure indeed traces to a declared
field's child writer. -/
theorem c10_obj_vs_partial_on_arrays_witness :
    objWrite [("x", strWrite)] (.arr []) = .error (.validation ".x" (.arr [])) ∧
    ∃ kc ∈ [("x", strWrite)],
      ∃ e2, kc.2 (getMemberTotal (.arr ([] : List Json)) kc.1) = .error e2 := by
  refine ⟨rfl, ?_⟩
  exact c10_obj_vs_partial_on_arrays.2.2.2.1 [("x", strWrite)] []
    (.validation ".x" (.arr [])) rfl

end SafePortals
